import Mathlib

/-!
Verification of the clinic patient-queue backend.

The development shallowly embeds the TypeScript source:
* `src/db.ts` — patient queue operations (`getAllPatients`, `addPatient`,
  `markVisited`, `getStats`) and the user directory (`createUser`), with the
  PostgreSQL store modelled as an explicit list of rows;
* `src/auth.ts` — token issuance/verification (`createAccessToken`,
  `decodeToken`), request-token extraction (`extractToken`), identity
  resolution (`getCurrentUser`), and the bcrypt wrappers.

Machine-level collaborators (the `jsonwebtoken` and `bcrypt` libraries) are
modelled symbolically: a signature is the pair of the secret and the signed
payload; a bcrypt hash is a well-formed-marked string embedding the password.
-/

namespace ClinicQueue

/-- A row of the `patients` table (`db.ts`, table created in `initDb`). -/
structure Patient where
  id : Nat
  name : String
  problem : String
  priority : String
  arrivalTime : String
  status : String
deriving DecidableEq, Repr

/-- The sort key `CASE WHEN priority='Emergency' THEN 0 ELSE 1 END` from the
`ORDER BY` clause of `getAllPatients` in `db.ts`. -/
def prioRank (p : Patient) : Nat :=
  if p.priority = "Emergency" then 0 else 1

/-- The two-key ordering realised by
`ORDER BY CASE WHEN priority='Emergency' THEN 0 ELSE 1 END, "arrivalTime" ASC`
in `getAllPatients` (`db.ts`). -/
def patientLE (p q : Patient) : Prop :=
  prioRank p < prioRank q ∨ (prioRank p = prioRank q ∧ p.arrivalTime ≤ q.arrivalTime)

instance : DecidableRel patientLE := fun p q => by
  unfold patientLE; exact inferInstance

instance : IsTotal Patient patientLE where
  total p q := by
    unfold patientLE
    rcases Nat.lt_trichotomy (prioRank p) (prioRank q) with h | h | h
    · exact Or.inl (Or.inl h)
    · rcases le_total p.arrivalTime q.arrivalTime with ht | ht
      · exact Or.inl (Or.inr ⟨h, ht⟩)
      · exact Or.inr (Or.inr ⟨h.symm, ht⟩)
    · exact Or.inr (Or.inl h)

instance : IsTrans Patient patientLE where
  trans p q r hpq hqr := by
    unfold patientLE at *
    rcases hpq with h1 | ⟨h1, t1⟩
    · rcases hqr with h2 | ⟨h2, _⟩
      · exact Or.inl (h1.trans h2)
      · exact Or.inl (h2 ▸ h1)
    · rcases hqr with h2 | ⟨h2, t2⟩
      · exact Or.inl (h1 ▸ h2)
      · exact Or.inr ⟨h1.trans h2, t1.trans t2⟩

/-- `getAllPatients` from `db.ts`:
`SELECT * FROM patients WHERE status='Waiting' ORDER BY
 CASE WHEN priority='Emergency' THEN 0 ELSE 1 END, "arrivalTime" ASC`.
The row store is the explicit list `db`; the `ORDER BY` is realised as a
sort by `patientLE` of the filtered rows. -/
def getAllPatients (db : List Patient) : List Patient :=
  List.insertionSort patientLE (db.filter (fun p => p.status == "Waiting"))

/-- `addPatient` from `db.ts`: inserts a row with the given fields, the
serial id assigned by storage, status `"Waiting"`, and the caller-supplied
arrival instant. Returns the new row and the updated store. -/
def addPatient (db : List Patient) (nextId : Nat)
    (name problem priority arrival : String) : Patient × List Patient :=
  let p : Patient :=
    { id := nextId, name := name, problem := problem, priority := priority
      arrivalTime := arrival, status := "Waiting" }
  (p, db ++ [p])

/-- `{ p with status := "Visited" }`: the effect of
`UPDATE patients SET status='Visited'` on one row (`markVisited`, `db.ts`). -/
def setVisited (p : Patient) : Patient :=
  { p with status := "Visited" }

/-- Result of `markVisited` (`db.ts`): the returned pair
`[patient | null, error-code | null]` together with the store after the call. -/
structure MarkResult where
  patient : Option Patient
  err : Option String
  db : List Patient
deriving DecidableEq, Repr

/-- `markVisited` from `db.ts`: select the row with the given id
(`SELECT * FROM patients WHERE id = $1`, first row); `[null, "not_found"]`
when absent; `[null, "already_visited"]` when its status is `"Visited"`;
otherwise `UPDATE patients SET status='Visited' WHERE id = $1 RETURNING *`
and return the updated row. The per-row effect of the `UPDATE` is
`visitRow`. -/
def visitRow (pid : Nat) (p : Patient) : Patient :=
  if p.id == pid then setVisited p else p

def markVisited (db : List Patient) (pid : Nat) : MarkResult :=
  match db.find? (fun p => p.id == pid) with
  | none => ⟨none, some "not_found", db⟩
  | some row =>
    if row.status = "Visited" then ⟨none, some "already_visited", db⟩
    else
      let db' := db.map (visitRow pid)
      ⟨db'.find? (fun p => p.id == pid), none, db'⟩

/-- `getStats` from `db.ts`: the three aggregate counts. -/
def getStats (db : List Patient) : Nat × Nat × Nat :=
  ((db.filter (fun p => p.status == "Waiting")).length,
   (db.filter (fun p => p.status == "Waiting" && p.priority == "Emergency")).length,
   (db.filter (fun p => p.status == "Visited")).length)

/-- The persistent state the queue operations act on: the `patients` rows and
the next serial id the storage will assign. -/
structure QState where
  db : List Patient
  nextId : Nat
deriving DecidableEq, Repr

/-- One API-level operation on the patient queue (the four operations the
server in the routing file dispatches to `db.ts`). An `enqueue` carries the
request fields and the arrival instant observed at creation. -/
inductive Op where
  | enqueue (name problem priority arrival : String)
  | listWaiting
  | visit (pid : Nat)
  | stats
deriving DecidableEq, Repr

/-- Effect of one operation on the stored state: `enqueue` inserts via
`addPatient`; `listWaiting` and `stats` are reads; `visit` runs
`markVisited`. -/
def applyOp (s : QState) : Op → QState
  | .enqueue name problem priority arrival =>
    ⟨(addPatient s.db s.nextId name problem priority arrival).2, s.nextId + 1⟩
  | .listWaiting => s
  | .visit pid => ⟨(markVisited s.db pid).db, s.nextId⟩
  | .stats => s

/-- Effect of a sequence of operations. -/
def applyOps (s : QState) (ops : List Op) : QState :=
  ops.foldl applyOp s

/-- Storage well-formedness: every stored id is below the next serial id. -/
def WF (s : QState) : Prop :=
  ∀ p ∈ s.db, p.id < s.nextId

instance (s : QState) : Decidable (WF s) := by
  unfold WF; exact inferInstance

/-! ### Token service (`auth.ts`) -/

/-- A JSON scalar as it may appear in the `sub` claim: a string or a number
(the TypeScript type is `string | number`). -/
inductive JsonVal where
  | str : String → JsonVal
  | num : Int → JsonVal
deriving DecidableEq, Repr

/-- JavaScript `String(v)` on a `sub` value: a string maps to itself, an
integer number to its decimal representation. -/
def JsonVal.toJsString : JsonVal → String
  | .str s => s
  | .num n => toString n

/-- The claims record handed to `createAccessToken` by the signup/login
handlers: `{ sub, email, role }`. `none` models an absent/undefined field. -/
structure TokenClaims where
  sub : Option JsonVal
  email : Option String
  role : Option String
deriving DecidableEq, Repr

/-- The `JWTPayload` of `auth.ts`: the claims plus the `iat` and `exp`
timestamps (seconds) added by `jwt.sign`. -/
structure JWTPayload where
  sub : Option JsonVal
  email : Option String
  role : Option String
  iat : Nat
  exp : Nat
deriving DecidableEq, Repr

/-- Symbolic model of a compact JWT produced by the `jsonwebtoken` library:
the payload together with its signature, modelled as the pair of the signing
secret and the signed payload (a correct MAC is exactly a value only
producible from that secret and that payload). -/
structure SignedToken where
  payload : JWTPayload
  sig : String × JWTPayload
deriving DecidableEq, Repr

/-- Symbolic `jwt.sign(payload, secret, { expiresIn })`: stamps
`iat = now` and `exp = now + expiresIn` and signs. -/
def jwtSign (secret : String) (c : TokenClaims) (expiresIn : Nat) (now : Nat) :
    SignedToken :=
  let payload : JWTPayload :=
    { sub := c.sub, email := c.email, role := c.role, iat := now, exp := now + expiresIn }
  { payload := payload, sig := (secret, payload) }

/-- Symbolic `jwt.verify(token, secret)` at clock `now`: succeeds exactly when
the signature is the MAC of the payload under `secret` and the expiry
has not elapsed (`now < exp`). -/
def jwtVerify (secret : String) (t : SignedToken) (now : Nat) : Option JWTPayload :=
  if t.sig = (secret, t.payload) ∧ now < t.payload.exp then some t.payload else none

/-- `ACCESS_TOKEN_EXPIRE_MINUTES = 60 * 24` from `auth.ts`. -/
def ACCESS_TOKEN_EXPIRE_MINUTES : Nat := 60 * 24

/-- `createAccessToken(data, expiresDelta?)` from `auth.ts`: normalizes a
present `sub` claim to `String(sub)`, picks
`expiresDelta ? expiresDelta : ACCESS_TOKEN_EXPIRE_MINUTES * 60` seconds
(`0` is falsy in JavaScript, hence also yields the default) and signs. -/
def createAccessToken (secret : String) (data : TokenClaims)
    (expiresDelta : Option Nat) (now : Nat) : SignedToken :=
  let toEncode : TokenClaims :=
    { data with sub := data.sub.map (fun v => JsonVal.str v.toJsString) }
  let expiresIn : Nat :=
    match expiresDelta with
    | some d => if d = 0 then ACCESS_TOKEN_EXPIRE_MINUTES * 60 else d
    | none => ACCESS_TOKEN_EXPIRE_MINUTES * 60
  jwtSign secret toEncode expiresIn now

/-- `decodeToken` from `auth.ts`: `jwt.verify` with the configured secret,
mapping any verification failure to the single
`"Invalid authentication credentials"` error. -/
def decodeToken (secret : String) (t : SignedToken) (now : Nat) :
    Except String JWTPayload :=
  match jwtVerify secret t now with
  | some p => Except.ok p
  | none => Except.error "Invalid authentication credentials"

/-! ### Credential store (`auth.ts`, bcrypt wrappers) -/

/-- Symbolic model of the `bcrypt` library's hash: a `"$2b$10$"`-marked
string embedding the salt and the password, separated by a marker
character. -/
def bcryptHash (password salt : String) : String :=
  "$2b$10$" ++ salt ++ "#" ++ password

/-- Whether a string carries the bcrypt format marker (the shape check the
library performs before comparing). -/
def isBcryptHashFormat (h : String) : Bool :=
  h.data.take 7 = "$2b$10$".data

/-- Symbolic model of `bcrypt.compare(password, hash)`: `false` on a
malformed hash (the library resolves to `false`, it does not throw),
otherwise compares the embedded password. -/
def bcryptCompare (password h : String) : Bool :=
  if isBcryptHashFormat h then
    (((h.data.drop 7).dropWhile (fun c => c ≠ '#')).drop 1) = password.data
  else false

/-- `hashPassword` from `auth.ts` (`bcrypt.hash(password, 10)`); the salt the
library draws is passed explicitly. -/
def hashPassword (password salt : String) : String :=
  bcryptHash password salt

/-- `verifyPassword` from `auth.ts` (`bcrypt.compare`). Total: it returns a
boolean on every input, it never throws. -/
def verifyPassword (plainPassword hashedPassword : String) : Bool :=
  bcryptCompare plainPassword hashedPassword

/-! ### Identity resolver (`auth.ts`) -/

/-- The parts of an Express `Request` the resolver reads: the
`Authorization` header and the parsed cookies. -/
structure Request where
  authorization : Option String
  cookies : List (String × String)
deriving DecidableEq, Repr

/-- The `CurrentUser` of `auth.ts`. `user_id` is a JavaScript number that may
be `NaN` (modelled as `none`) when `parseInt` fails. -/
structure CurrentUser where
  user_id : Option Int
  email : Option String
  role : Option String
deriving DecidableEq, Repr

/-- JavaScript `String.prototype.trim()`: strip leading and trailing
whitespace. -/
def jsTrim (s : String) : String :=
  ⟨((s.data.dropWhile Char.isWhitespace).reverse.dropWhile Char.isWhitespace).reverse⟩

/-- JavaScript `.replace(/^"|"$/g, "")`: remove one leading and one trailing
double-quote when present. -/
def stripWrapQuotes (s : String) : String :=
  let l1 := if s.data.head? = some '"' then s.data.drop 1 else s.data
  ⟨if l1.getLast? = some '"' then l1.dropLast else l1⟩

/-- The normalization pipeline applied to the bearer header value in
`extractToken`: `.trim().replace(/^"|"$/g, "").trim()`. -/
def normalizeToken (s : String) : String :=
  jsTrim (stripWrapQuotes (jsTrim s))

/-- JavaScript `s.split(" ", 2)[1]`: the characters between the first space
and the following space (empty when the first space is last). -/
def splitField1 (s : String) : String :=
  ⟨((s.data.dropWhile (fun c => !(c == ' '))).drop 1).takeWhile (fun c => !(c == ' '))⟩

/-- Lower-casing used by the `toLowerCase()` comparisons in `extractToken`. -/
def toLowerStr (s : String) : String :=
  ⟨s.data.map Char.toLower⟩

/-- The bearer token the header branch of `extractToken` returns, given the
`Authorization` header value: the header must lower-case-start with
`"bearer "`, and the normalized second field must be non-empty and not the
literal `"null"`/`"undefined"`. -/
def headerToken : Option String → Option String
  | some h =>
    if (h.data.map Char.toLower).take 7 = "bearer ".data then
      if normalizeToken (splitField1 h) ≠ "" ∧
          toLowerStr (normalizeToken (splitField1 h)) ≠ "null" ∧
          toLowerStr (normalizeToken (splitField1 h)) ≠ "undefined" then
        some (normalizeToken (splitField1 h))
      else none
    else none
  | none => none

/-- `extractToken` from `auth.ts`: the Authorization header first (normalized
and guarded), then the cookie named by `JWT_COOKIE_NAME` (returned verbatim,
empty string is falsy), else the authentication error. -/
def extractToken (cookieName : String) (req : Request) : Except String String :=
  match headerToken req.authorization with
  | some t => Except.ok t
  | none =>
    match req.cookies.lookup cookieName with
    | some c => if c = "" then Except.error "Invalid authentication credentials" else Except.ok c
    | none => Except.error "Invalid authentication credentials"

/-- JavaScript `parseInt(s, 10)`: skip leading whitespace, read an optional
sign and then the longest run of decimal digits; `NaN` (modelled `none`)
when no digit is read. -/
def parseIntJS (s : String) : Option Int :=
  match s.data.dropWhile Char.isWhitespace with
  | [] => none
  | c :: cs =>
    let signed : Int × List Char :=
      if c = '-' then (-1, cs) else if c = '+' then (1, cs) else (1, c :: cs)
    let digits := signed.2.takeWhile Char.isDigit
    if digits = [] then none
    else some (signed.1 *
      (digits.foldl (fun acc d => acc * 10 + (d.toNat - '0'.toNat)) 0 : Nat))

/-- The `sub`-to-`user_id` coercion of `getCurrentUser` / `authMiddleware`:
a number is kept, anything else goes through `parseInt(String(sub), 10)`. -/
def coerceUserId : JsonVal → Option Int
  | .num n => some n
  | .str s => parseIntJS s

/-- `getCurrentUser` from `auth.ts` (the same resolution logic as
`authMiddleware`): extract the token, verify it (`verify` stands for
`decodeToken` on the wire encoding of the token), reject an absent `sub`,
and coerce `sub` to the integer `user_id`. -/
def getCurrentUser (verify : String → Except String JWTPayload)
    (cookieName : String) (req : Request) : Except String CurrentUser :=
  match extractToken cookieName req with
  | Except.error e => Except.error e
  | Except.ok token =>
    match verify token with
    | Except.error e => Except.error e
    | Except.ok payload =>
      match payload.sub with
      | none => Except.error "Invalid authentication credentials"
      | some v =>
        Except.ok { user_id := coerceUserId v, email := payload.email, role := payload.role }

/-! ### User directory (`db.ts`) -/

/-- A row of the `users` table. -/
structure UserRec where
  id : Nat
  name : String
  email : String
  passwordHash : String
  role : String
deriving DecidableEq, Repr

/-- The `users` storage: rows plus the next serial id. -/
structure UserStore where
  users : List UserRec
  nextId : Nat
deriving DecidableEq, Repr

/-- A storage-level failure: the unique-constraint violation PostgreSQL
reports with code `23505`, or any other storage error. -/
inductive DbError where
  | uniqueViolation
  | other : String → DbError
deriving DecidableEq, Repr

/-- The error surface of `createUser`: the dedicated duplicate-email error
(`"Email already exists"`, thrown on code `23505`) or a rethrown storage
error. -/
inductive CreateUserError where
  | duplicateEmail
  | storage : String → CreateUserError
deriving DecidableEq, Repr

/-- The parameterized `INSERT INTO users ... RETURNING ...` under the
`UNIQUE` constraint on `email`: fails with the unique violation when a row
with this email exists, otherwise appends the row. -/
def insertUser (st : UserStore) (name email hash role : String) :
    Except DbError (UserRec × UserStore) :=
  if st.users.any (fun u => u.email == email) then
    Except.error DbError.uniqueViolation
  else
    let u : UserRec :=
      { id := st.nextId, name := name, email := email, passwordHash := hash, role := role }
    Except.ok (u, ⟨st.users ++ [u], st.nextId + 1⟩)

/-- `createUser` from `db.ts`: hash the password, insert, translate the
unique violation (code `23505`) into the dedicated duplicate-email error and
rethrow anything else. Returns the store after the call alongside the
outcome; a failed call leaves the store as it was. -/
def createUser (st : UserStore) (name email password salt : String)
    (role : String) : Except CreateUserError UserRec × UserStore :=
  match insertUser st name email (hashPassword password salt) role with
  | Except.ok (u, st') => (Except.ok u, st')
  | Except.error DbError.uniqueViolation => (Except.error CreateUserError.duplicateEmail, st)
  | Except.error (DbError.other e) => (Except.error (CreateUserError.storage e), st)

/-- Character-level well-formedness of a compact JWT string: non-empty, free
of whitespace and double quotes, and not the literal `"null"`/`"undefined"`.
Every serialized JWT (base64url segments joined by dots) satisfies this. -/
def cleanTokenStr (s : String) : Prop :=
  s.data ≠ [] ∧ (∀ c ∈ s.data, c.isWhitespace = false ∧ c ≠ '"') ∧
  toLowerStr s ≠ "null" ∧ toLowerStr s ≠ "undefined"

instance : DecidablePred cleanTokenStr := fun s => by
  unfold cleanTokenStr; exact inferInstance

/-! ## Theorems -/

lemma dropWhile_eq_self_of_all {p : Char → Bool} {l : List Char}
    (h : ∀ c ∈ l, p c = false) : l.dropWhile p = l := by
  cases l with
  | nil => rfl
  | cons a t => simp [List.dropWhile_cons, h a (List.mem_cons_self a t)]

lemma mem_of_head?_eq {l : List Char} {x : Char} (h : l.head? = some x) : x ∈ l := by
  cases l with
  | nil => simp at h
  | cons a t =>
    simp only [List.head?_cons, Option.some.injEq] at h
    simp [h]

lemma mem_of_getLast?_eq {l : List Char} {x : Char} (h : l.getLast? = some x) : x ∈ l := by
  rw [← List.head?_reverse] at h
  exact List.mem_reverse.mp (mem_of_head?_eq h)

lemma jsTrim_of_no_ws {s : String} (h : ∀ c ∈ s.data, c.isWhitespace = false) :
    jsTrim s = s := by
  unfold jsTrim
  rw [dropWhile_eq_self_of_all h,
    dropWhile_eq_self_of_all (fun c hc => h c (List.mem_reverse.mp hc)),
    List.reverse_reverse]

lemma stripWrapQuotes_of_no_quote {s : String} (h : ∀ c ∈ s.data, c ≠ '"') :
    stripWrapQuotes s = s := by
  unfold stripWrapQuotes
  have h1 : (if s.data.head? = some '"' then s.data.drop 1 else s.data) = s.data := by
    cases hh : s.data.head? with
    | none => simp
    | some c =>
      have hc : c ≠ '"' := h c (mem_of_head?_eq hh)
      simp [hc]
  rw [h1]
  show String.mk (if s.data.getLast? = some '"' then s.data.dropLast else s.data) = s
  have h2 : (if s.data.getLast? = some '"' then s.data.dropLast else s.data) = s.data := by
    cases hg : s.data.getLast? with
    | none => simp
    | some c =>
      have hc : c ≠ '"' := h c (mem_of_getLast?_eq hg)
      simp [hc]
  rw [h2]

lemma normalizeToken_clean {s : String}
    (h : ∀ c ∈ s.data, c.isWhitespace = false ∧ c ≠ '"') : normalizeToken s = s := by
  unfold normalizeToken
  rw [jsTrim_of_no_ws (fun c hc => (h c hc).1),
    stripWrapQuotes_of_no_quote (fun c hc => (h c hc).2),
    jsTrim_of_no_ws (fun c hc => (h c hc).1)]

lemma not_space_of_no_ws {c : Char} (h : c.isWhitespace = false) : c ≠ ' ' := by
  intro he
  rw [he] at h
  exact absurd h (by decide)

lemma bearer_drop_first_field (l : List Char) :
    ((('B' :: 'e' :: 'a' :: 'r' :: 'e' :: 'r' :: ' ' :: l).dropWhile
      (fun c => !(c == ' '))).drop 1) = l := rfl

lemma splitField1_bearer {s : String} (h : ∀ c ∈ s.data, c.isWhitespace = false) :
    splitField1 ("Bearer " ++ s) = s := by
  unfold splitField1
  rw [String.data_append]
  show String.mk (((('B' :: 'e' :: 'a' :: 'r' :: 'e' :: 'r' :: ' ' :: s.data).dropWhile
    (fun c => !(c == ' '))).drop 1).takeWhile (fun c => !(c == ' '))) = s
  rw [bearer_drop_first_field]
  rw [List.takeWhile_eq_self_iff.mpr (fun c hc => by
    have hne : c ≠ ' ' := not_space_of_no_ws (h c hc)
    simp [hne])]

lemma string_ne_empty_of_data {s : String} (h : s.data ≠ []) : s ≠ "" := by
  intro he
  rw [he] at h
  exact h rfl

lemma headerToken_bearer {s : String} (hc : cleanTokenStr s) :
    headerToken (some ("Bearer " ++ s)) = some s := by
  obtain ⟨hne, hchars, hnull, hundef⟩ := hc
  have hcond : ((("Bearer " ++ s).data).map Char.toLower).take 7 = "bearer ".data := by
    rw [String.data_append]
    show (((['B', 'e', 'a', 'r', 'e', 'r', ' '] ++ s.data).map Char.toLower).take 7)
      = "bearer ".data
    rw [List.map_append]
    show ((['b', 'e', 'a', 'r', 'e', 'r', ' '] ++ s.data.map Char.toLower).take 7)
      = "bearer ".data
    rw [List.take_append_of_le_length (by simp)]
    rfl
  have hsplit := splitField1_bearer (fun c hcm => (hchars c hcm).1)
  show (if (("Bearer " ++ s).data.map Char.toLower).take 7 = "bearer ".data then
      if normalizeToken (splitField1 ("Bearer " ++ s)) ≠ "" ∧
          toLowerStr (normalizeToken (splitField1 ("Bearer " ++ s))) ≠ "null" ∧
          toLowerStr (normalizeToken (splitField1 ("Bearer " ++ s))) ≠ "undefined" then
        some (normalizeToken (splitField1 ("Bearer " ++ s)))
      else none
    else none) = some s
  rw [if_pos hcond, hsplit, normalizeToken_clean hchars]
  rw [if_pos ⟨string_ne_empty_of_data hne, hnull, hundef⟩]

lemma extractToken_bearer {s : String} (hc : cleanTokenStr s)
    (cookieName : String) (cookies : List (String × String)) :
    extractToken cookieName ⟨some ("Bearer " ++ s), cookies⟩ = Except.ok s := by
  simp only [extractToken, headerToken_bearer hc]

/-- C8: a token issued without an expiry override expires exactly 24 hours
(86400 seconds) after its issuance instant, and the subject claim is
normalized to its canonical string form before signing. -/
theorem issue_expiry_sub_normalized (secret : String) (data : TokenClaims) (now : Nat) :
    (createAccessToken secret data none now).payload.exp = now + 86400
  ∧ (createAccessToken secret data none now).payload.iat = now
  ∧ (createAccessToken secret data none now).payload.sub =
      data.sub.map (fun v => JsonVal.str v.toJsString) :=
  ⟨rfl, rfl, rfl⟩

/-- C8 witness at a concrete claims record and instant. -/
theorem issue_expiry_sub_normalized_witness :
    (createAccessToken "k" ⟨some (JsonVal.num 5), some "a@b.c", some "admin"⟩ none 100).payload.exp
      = 100 + 86400 :=
  (issue_expiry_sub_normalized "k" ⟨some (JsonVal.num 5), some "a@b.c", some "admin"⟩ 100).1

/-- C9: `verifyPassword` on a malformed stored hash returns `false` (and, the
model being a total boolean function, it never throws). -/
theorem verifyPassword_malformed_false (password h : String)
    (hm : isBcryptHashFormat h = false) : verifyPassword password h = false := by
  simp [verifyPassword, bcryptCompare, hm]

/-- C9 witness: a concrete non-hash string. -/
theorem verifyPassword_malformed_false_witness :
    isBcryptHashFormat "not-a-hash" = false ∧ verifyPassword "secret" "not-a-hash" = false :=
  ⟨by decide, verifyPassword_malformed_false "secret" "not-a-hash" (by decide)⟩

/-- C7: `createUser` on an email already present fails with the dedicated
duplicate-email error, distinguishable from any other storage failure, and
leaves the store — in particular the original record with that email —
unmodified. -/
theorem createUser_duplicate_email (st : UserStore) (n e pw salt r : String)
    (hdup : ∃ u ∈ st.users, u.email = e) :
    (createUser st n e pw salt r).1 = Except.error CreateUserError.duplicateEmail
  ∧ (createUser st n e pw salt r).2 = st
  ∧ ∀ msg, CreateUserError.duplicateEmail ≠ CreateUserError.storage msg := by
  obtain ⟨u, hu, he⟩ := hdup
  have hany : st.users.any (fun v => v.email == e) = true :=
    List.any_eq_true.mpr ⟨u, hu, by simp [he]⟩
  refine ⟨?_, ?_, ?_⟩
  · simp [createUser, insertUser, hany]
  · simp [createUser, insertUser, hany]
  · intro msg h
    exact CreateUserError.noConfusion h

/-- C7 witness: duplicate signup against a one-user store. -/
theorem createUser_duplicate_email_witness :
    (createUser ⟨[⟨1, "Admin", "admin@clinic.com", "h", "admin"⟩], 2⟩
        "Eve" "admin@clinic.com" "pw" "s" "user").1
      = Except.error CreateUserError.duplicateEmail
  ∧ (createUser ⟨[⟨1, "Admin", "admin@clinic.com", "h", "admin"⟩], 2⟩
        "Eve" "admin@clinic.com" "pw" "s" "user").2
      = ⟨[⟨1, "Admin", "admin@clinic.com", "h", "admin"⟩], 2⟩ := by
  have h := createUser_duplicate_email ⟨[⟨1, "Admin", "admin@clinic.com", "h", "admin"⟩], 2⟩
    "Eve" "admin@clinic.com" "pw" "s" "user"
    ⟨⟨1, "Admin", "admin@clinic.com", "h", "admin"⟩, by decide, rfl⟩
  exact ⟨h.1, h.2.1⟩

/-- C4: a token issued by `createAccessToken` verifies through `decodeToken`
before its expiry, recovering the issued email and role and the subject in
its canonical string form (a string subject is recovered verbatim); a token
whose signature is not the MAC of its payload under the configured secret is
rejected; a token whose expiry has elapsed is rejected. -/
theorem token_issue_verify_spec (secret : String) (data : TokenClaims) (now now2 : Nat)
    (hfresh : now2 < now + ACCESS_TOKEN_EXPIRE_MINUTES * 60) :
    decodeToken secret (createAccessToken secret data none now) now2 =
      Except.ok { sub := data.sub.map (fun v => JsonVal.str v.toJsString),
                  email := data.email, role := data.role,
                  iat := now, exp := now + ACCESS_TOKEN_EXPIRE_MINUTES * 60 }
  ∧ (∀ s, data.sub = some (JsonVal.str s) →
      (createAccessToken secret data none now).payload.sub = some (JsonVal.str s))
  ∧ (∀ t : SignedToken, t.sig ≠ (secret, t.payload) →
      decodeToken secret t now2 = Except.error "Invalid authentication credentials")
  ∧ (∀ t : SignedToken, t.payload.exp ≤ now2 →
      decodeToken secret t now2 = Except.error "Invalid authentication credentials") := by
  refine ⟨?_, ?_, ?_, ?_⟩
  · simp [decodeToken, jwtVerify, createAccessToken, jwtSign, hfresh]
  · intro s h
    simp [createAccessToken, jwtSign, h, JsonVal.toJsString]
  · intro t h
    simp [decodeToken, jwtVerify, h]
  · intro t h
    have hn : ¬ now2 < t.payload.exp := not_lt.mpr h
    simp [decodeToken, jwtVerify, hn]

/-- C4 witness: issue at time 0, verify at time 3600. -/
theorem token_issue_verify_spec_witness :
    decodeToken "k" (createAccessToken "k" ⟨some (JsonVal.num 5), some "a@b.c", some "admin"⟩ none 0)
        3600
      = Except.ok ⟨some (JsonVal.str "5"), some "a@b.c", some "admin", 0, 86400⟩ :=
  (token_issue_verify_spec "k" ⟨some (JsonVal.num 5), some "a@b.c", some "admin"⟩ 0 3600
    (by decide)).1

/-- C5: with no `Authorization` header and no matching cookie, identity
resolution fails with the uniform authentication error; with a well-formed
bearer token that verifies, it returns an identity whose `user_id` is the
integer denoted by the token's subject claim, whether that claim is a
number or a string. -/
theorem resolve_identity_spec (verify : String → Except String JWTPayload)
    (cookieName : String) :
    (∀ req : Request, req.authorization = none →
      req.cookies.lookup cookieName = none →
      getCurrentUser verify cookieName req =
        Except.error "Invalid authentication credentials")
  ∧ (∀ (s : String) (cookies : List (String × String)) (payload : JWTPayload) (n : Int),
      cleanTokenStr s → verify s = Except.ok payload →
      (payload.sub = some (JsonVal.num n) ∨
        (∃ s2, payload.sub = some (JsonVal.str s2) ∧ parseIntJS s2 = some n)) →
      getCurrentUser verify cookieName ⟨some ("Bearer " ++ s), cookies⟩ =
        Except.ok ⟨some n, payload.email, payload.role⟩) := by
  constructor
  · intro req hna hnc
    obtain ⟨a, c⟩ := req
    simp only at hna hnc
    subst hna
    simp [getCurrentUser, extractToken, headerToken, hnc]
  · intro s cookies payload n hc hv hsub
    have he := extractToken_bearer hc cookieName cookies
    simp only [getCurrentUser, he, hv]
    rcases hsub with h | ⟨s2, h, hp⟩
    · simp [h, coerceUserId]
    · simp [h, coerceUserId, hp]

/-- C5 witness: a request with a concrete clean bearer token whose payload
carries the string subject `"42"` resolves to `user_id = 42`. -/
theorem resolve_identity_spec_witness :
    getCurrentUser
      (fun t =>
        if t = "tok123" then
          Except.ok ⟨some (JsonVal.str "42"), some "a@b.c", some "user", 0, 86400⟩
        else Except.error "Invalid authentication credentials")
      "access_token" ⟨some ("Bearer " ++ "tok123"), []⟩
      = Except.ok ⟨some 42, some "a@b.c", some "user"⟩ :=
  (resolve_identity_spec
      (fun t =>
        if t = "tok123" then
          Except.ok ⟨some (JsonVal.str "42"), some "a@b.c", some "user", 0, 86400⟩
        else Except.error "Invalid authentication credentials")
      "access_token").2
    "tok123" [] ⟨some (JsonVal.str "42"), some "a@b.c", some "user", 0, 86400⟩ 42
    (by decide) rfl (Or.inr ⟨"42", rfl, by decide⟩)

/-- C10: a verified token whose subject is a string that does not parse as an
integer does not make resolution fail: it succeeds with a `NaN` `user_id`
(the unguarded `parseInt` coercion). -/
theorem resolve_nonnumeric_sub_nan (verify : String → Except String JWTPayload)
    (cookieName : String) (s : String) (cookies : List (String × String))
    (payload : JWTPayload) (s2 : String)
    (hc : cleanTokenStr s) (hv : verify s = Except.ok payload)
    (hsub : payload.sub = some (JsonVal.str s2)) (hnan : parseIntJS s2 = none) :
    getCurrentUser verify cookieName ⟨some ("Bearer " ++ s), cookies⟩ =
      Except.ok ⟨none, payload.email, payload.role⟩ := by
  have he := extractToken_bearer hc cookieName cookies
  simp [getCurrentUser, he, hv, hsub, coerceUserId, hnan]

/-- C10 witness: subject `"abc"` yields a successful resolution with
`user_id = NaN`. -/
theorem resolve_nonnumeric_sub_nan_witness :
    getCurrentUser
      (fun t =>
        if t = "tok123" then
          Except.ok ⟨some (JsonVal.str "abc"), some "a@b.c", some "user", 0, 86400⟩
        else Except.error "Invalid authentication credentials")
      "access_token" ⟨some ("Bearer " ++ "tok123"), []⟩
      = Except.ok ⟨none, some "a@b.c", some "user"⟩ :=
  resolve_nonnumeric_sub_nan
    (fun t =>
      if t = "tok123" then
        Except.ok ⟨some (JsonVal.str "abc"), some "a@b.c", some "user", 0, 86400⟩
      else Except.error "Invalid authentication credentials")
    "access_token" "tok123" [] ⟨some (JsonVal.str "abc"), some "a@b.c", some "user", 0, 86400⟩ "abc"
    (by decide) rfl rfl (by decide)

/-- C6 counterexample: a token extracted from the named cookie is passed to
verification verbatim — here with its leading/trailing whitespace intact —
so the claim that every extracted token is normalized before verification
fails. -/
theorem extractToken_cookie_unnormalized_cex :
    extractToken "access_token" ⟨none, [("access_token", " tok ")]⟩ = Except.ok " tok "
  ∧ jsTrim " tok " ≠ " tok " := by
  constructor
  · rfl
  · decide

/-- C6 (amended): every successfully extracted token either came from the
`Authorization` header with the normalization pipeline (trim, strip wrapping
quotes, trim) applied to the header's second field, or is the verbatim,
unnormalized value of the named cookie. -/
theorem extractToken_normalization_amended (cookieName : String) (req : Request)
    (t : String) (h : extractToken cookieName req = Except.ok t) :
    (∃ hv, req.authorization = some hv ∧ t = normalizeToken (splitField1 hv))
  ∨ (req.cookies.lookup cookieName = some t ∧ t ≠ "") := by
  unfold extractToken at h
  cases hh : headerToken req.authorization with
  | some u =>
    rw [hh] at h
    simp only [Except.ok.injEq] at h
    subst h
    left
    cases ha : req.authorization with
    | none => rw [ha] at hh; exact absurd hh (by simp [headerToken])
    | some hv =>
      rw [ha] at hh
      simp only [headerToken] at hh
      by_cases h1 : (hv.data.map Char.toLower).take 7 = "bearer ".data
      · rw [if_pos h1] at hh
        by_cases h2 : normalizeToken (splitField1 hv) ≠ "" ∧
            toLowerStr (normalizeToken (splitField1 hv)) ≠ "null" ∧
            toLowerStr (normalizeToken (splitField1 hv)) ≠ "undefined"
        · rw [if_pos h2] at hh
          simp only [Option.some.injEq] at hh
          exact ⟨hv, rfl, hh.symm⟩
        · rw [if_neg h2] at hh
          exact absurd hh (by simp)
      · rw [if_neg h1] at hh
        exact absurd hh (by simp)
  | none =>
    rw [hh] at h
    dsimp only at h
    right
    cases hl : req.cookies.lookup cookieName with
    | none => rw [hl] at h; exact absurd h (by simp)
    | some c =>
      rw [hl] at h
      dsimp only at h
      by_cases hce : c = ""
      · rw [if_pos hce] at h
        exact absurd h (by simp)
      · rw [if_neg hce] at h
        simp only [Except.ok.injEq] at h
        subst h
        exact ⟨rfl, hce⟩

/-- C6 amended-claim witness: a plain bearer header yields the normalized
second field. -/
theorem extractToken_normalization_amended_witness :
    (∃ hv, (Request.mk (some "Bearer abc") []).authorization = some hv ∧
      "abc" = normalizeToken (splitField1 hv))
  ∨ ((Request.mk (some "Bearer abc") []).cookies.lookup "access_token" = some "abc" ∧
      "abc" ≠ "") :=
  extractToken_normalization_amended "access_token" ⟨some "Bearer abc", []⟩ "abc" (by rfl)

lemma visitRow_id (pid : Nat) (p : Patient) : (visitRow pid p).id = p.id := by
  unfold visitRow
  by_cases h : (p.id == pid) = true <;> simp [h, setVisited]

lemma find?_id_nodup {db : List Patient} {p : Patient} {pid : Nat}
    (hid : (db.map Patient.id).Nodup) (hp : p ∈ db) (he : p.id = pid) :
    db.find? (fun q => q.id == pid) = some p := by
  induction db with
  | nil => cases hp
  | cons a t ih =>
    rw [List.map_cons, List.nodup_cons] at hid
    rcases List.mem_cons.mp hp with rfl | hpt
    · exact List.find?_cons_of_pos t (by simp [he])
    · have ha : ¬ (a.id == pid) = true := by
        simp only [beq_iff_eq]
        intro hae
        exact hid.1 (by rw [hae, ← he]; exact List.mem_map_of_mem Patient.id hpt)
      rw [List.find?_cons_of_neg t ha]
      exact ih hid.2 hpt

lemma find?_map_visitRow (db : List Patient) (pid : Nat) :
    (db.map (visitRow pid)).find? (fun q => q.id == pid) =
      (db.find? (fun q => q.id == pid)).map (visitRow pid) := by
  induction db with
  | nil => rfl
  | cons a t ih =>
    by_cases h : (a.id == pid) = true
    · rw [List.map_cons,
        @List.find?_cons_of_pos _ (fun q => q.id == pid) (visitRow pid a) (t.map (visitRow pid))
          (by simpa [visitRow_id] using h),
        @List.find?_cons_of_pos _ (fun q => q.id == pid) a t h]
      rfl
    · rw [List.map_cons,
        @List.find?_cons_of_neg _ (fun q => q.id == pid) (visitRow pid a) (t.map (visitRow pid))
          (by simpa [visitRow_id] using h),
        @List.find?_cons_of_neg _ (fun q => q.id == pid) a t h]
      exact ih

/-- C2: under unique stored ids, `markVisited` fails with `not_found` iff no
patient with the id exists, fails with `already_visited` iff the patient
exists with status `"Visited"`, and otherwise succeeds returning the
patient (now visited); in particular two calls on an id that was `"Waiting"`
succeed then fail with `already_visited`. -/
theorem markVisited_spec (db : List Patient) (pid : Nat)
    (hid : (db.map Patient.id).Nodup) :
    ((markVisited db pid).err = some "not_found" ↔ ∀ p ∈ db, p.id ≠ pid)
  ∧ ((markVisited db pid).err = some "already_visited" ↔
      ∃ p ∈ db, p.id = pid ∧ p.status = "Visited")
  ∧ (∀ p ∈ db, p.id = pid → p.status ≠ "Visited" →
      (markVisited db pid).err = none ∧
      (markVisited db pid).patient = some (setVisited p))
  ∧ (∀ p ∈ db, p.id = pid → p.status = "Waiting" →
      (markVisited db pid).err = none ∧
      (markVisited (markVisited db pid).db pid).err = some "already_visited") := by
  refine ⟨⟨?_, ?_⟩, ⟨?_, ?_⟩, ?_, ?_⟩
  · intro h p hp hne
    cases hfind : db.find? (fun q => q.id == pid) with
    | none =>
      have hfp := List.find?_eq_none.mp hfind p hp
      simp [hne] at hfp
    | some row =>
      by_cases hst : row.status = "Visited" <;> simp [markVisited, hfind, hst] at h
  · intro hall
    have hnone : db.find? (fun q => q.id == pid) = none :=
      List.find?_eq_none.mpr (fun p hp => by simp [hall p hp])
    simp [markVisited, hnone]
  · intro h
    cases hfind : db.find? (fun q => q.id == pid) with
    | none => simp [markVisited, hfind] at h
    | some row =>
      by_cases hst : row.status = "Visited"
      · exact ⟨row, List.mem_of_find?_eq_some hfind,
          by simpa using List.find?_some hfind, hst⟩
      · simp [markVisited, hfind, hst] at h
  · rintro ⟨p, hp, hpe, hst⟩
    have hfind := find?_id_nodup hid hp hpe
    simp [markVisited, hfind, hst]
  · intro p hp hpe hst
    have hfind := find?_id_nodup hid hp hpe
    constructor
    · simp [markVisited, hfind, hst]
    · simp only [markVisited, hfind, if_neg hst, find?_map_visitRow]
      simp [visitRow, hpe]
  · intro p hp hpe hst
    have hstne : p.status ≠ "Visited" := by rw [hst]; decide
    have hfind := find?_id_nodup hid hp hpe
    constructor
    · simp [markVisited, hfind, hstne]
    · have hdb : (markVisited db pid).db = db.map (visitRow pid) := by
        simp [markVisited, hfind, hstne]
      rw [hdb]
      have hfind2 : (db.map (visitRow pid)).find? (fun q => q.id == pid) =
          some (setVisited p) := by
        rw [find?_map_visitRow, hfind]
        simp [visitRow, hpe]
      simp [markVisited, hfind2, setVisited]

/-- C2 witness: a one-patient store; the first `markVisited` succeeds, the
second fails with `already_visited`. -/
theorem markVisited_spec_witness :
    (markVisited [⟨1, "Al", "Fever", "Normal", "T1", "Waiting"⟩] 1).err = none
  ∧ (markVisited (markVisited [⟨1, "Al", "Fever", "Normal", "T1", "Waiting"⟩] 1).db 1).err
      = some "already_visited" :=
  (markVisited_spec [⟨1, "Al", "Fever", "Normal", "T1", "Waiting"⟩] 1 (by decide)).2.2.2
    ⟨1, "Al", "Fever", "Normal", "T1", "Waiting"⟩ (by decide) rfl rfl

/-- C1: after any stored set of patients and any sequence of operations
(in particular any sequence of enqueues), `getAllPatients` returns exactly
the `"Waiting"` rows (as a permutation of the filtered store) and is ordered
with every `"Emergency"` entry before every non-emergency entry and, within
equal priority, non-decreasing `arrivalTime`. -/
theorem listWaiting_exact_and_ordered (s : QState) (ops : List Op) :
    (getAllPatients (applyOps s ops).db).Perm
      (((applyOps s ops).db).filter (fun p => p.status == "Waiting"))
  ∧ (getAllPatients (applyOps s ops).db).Pairwise (fun p q =>
      (q.priority = "Emergency" → p.priority = "Emergency") ∧
      (p.priority = q.priority → p.arrivalTime ≤ q.arrivalTime)) := by
  constructor
  · exact List.perm_insertionSort _ _
  · have hs : List.Sorted patientLE (getAllPatients (applyOps s ops).db) :=
      List.sorted_insertionSort patientLE _
    refine List.Pairwise.imp ?_ hs
    intro a b hab
    constructor
    · intro hq
      rcases hab with h | ⟨h, _⟩
      · by_contra hp
        simp [prioRank, hq, hp] at h
      · by_contra hp
        simp [prioRank, hq, hp] at h
    · intro hpq
      rcases hab with h | ⟨_, ht⟩
      · exfalso
        simp [prioRank, hpq] at h
      · exact ht

lemma visited_setVisited_fix {p : Patient} (h : p.status = "Visited") :
    setVisited p = p := by
  cases p
  simp_all [setVisited]

lemma visitRow_visited {p : Patient} (pid : Nat) (h : p.status = "Visited") :
    visitRow pid p = p := by
  unfold visitRow
  by_cases hh : (p.id == pid) = true <;> simp [hh, visited_setVisited_fix h]

lemma visitRow_status (pid : Nat) (p : Patient) :
    (visitRow pid p).status = p.status ∨ (visitRow pid p).status = "Visited" := by
  unfold visitRow
  by_cases hh : (p.id == pid) = true <;> simp [hh, setVisited]

lemma markVisited_db_cases (db : List Patient) (pid : Nat) :
    (markVisited db pid).db = db ∨ (markVisited db pid).db = db.map (visitRow pid) := by
  unfold markVisited
  cases db.find? (fun q => q.id == pid) with
  | none => exact Or.inl rfl
  | some row => by_cases hst : row.status = "Visited" <;> simp [hst]

lemma mem_applyOp_of_visited {s : QState} {p : Patient} (op : Op)
    (hp : p ∈ s.db) (hv : p.status = "Visited") : p ∈ (applyOp s op).db := by
  cases op with
  | enqueue n pr po a => exact List.mem_append_left _ hp
  | listWaiting => exact hp
  | stats => exact hp
  | visit pid =>
    show p ∈ (markVisited s.db pid).db
    rcases markVisited_db_cases s.db pid with hdb | hdb
    · rw [hdb]; exact hp
    · rw [hdb]
      exact List.mem_map.mpr ⟨p, hp, visitRow_visited pid hv⟩

lemma mem_applyOps_of_visited (ops : List Op) {s : QState} {p : Patient}
    (hp : p ∈ s.db) (hv : p.status = "Visited") : p ∈ (applyOps s ops).db := by
  induction ops generalizing s with
  | nil => exact hp
  | cons op t ih => exact ih (mem_applyOp_of_visited op hp hv)

/-- Invariant after a successful visit of `pid`: the id is in range, the
state is well-formed, and every stored row with that id is `"Visited"`. -/
def VisitedLocked (s : QState) (pid : Nat) : Prop :=
  pid < s.nextId ∧ WF s ∧ ∀ p ∈ s.db, p.id = pid → p.status = "Visited"

lemma locked_applyOp {s : QState} {pid : Nat} (h : VisitedLocked s pid) (op : Op) :
    VisitedLocked (applyOp s op) pid := by
  obtain ⟨hlt, hwf, hvis⟩ := h
  cases op with
  | enqueue n pr po a =>
    refine ⟨Nat.lt_succ_of_lt hlt, ?_, ?_⟩
    · intro p hp
      rcases List.mem_append.mp hp with hp | hp
      · exact Nat.lt_succ_of_lt (hwf p hp)
      · rw [List.mem_singleton.mp hp]
        exact Nat.lt_succ_self _
    · intro p hp hpe
      rcases List.mem_append.mp hp with hp | hp
      · exact hvis p hp hpe
      · exfalso
        rw [List.mem_singleton.mp hp] at hpe
        exact Nat.lt_irrefl _ (hpe ▸ hlt)
  | listWaiting => exact ⟨hlt, hwf, hvis⟩
  | stats => exact ⟨hlt, hwf, hvis⟩
  | visit pid2 =>
    rcases markVisited_db_cases s.db pid2 with hdb | hdb
    · exact ⟨hlt,
        fun p hp => hwf p (by
          rw [show (applyOp s (Op.visit pid2)).db = (markVisited s.db pid2).db from rfl,
            hdb] at hp
          exact hp),
        fun p hp => hvis p (by
          rw [show (applyOp s (Op.visit pid2)).db = (markVisited s.db pid2).db from rfl,
            hdb] at hp
          exact hp)⟩
    · refine ⟨hlt, ?_, ?_⟩
      · intro p hp
        rw [show (applyOp s (Op.visit pid2)).db = (markVisited s.db pid2).db from rfl,
          hdb] at hp
        obtain ⟨a, ha, rfl⟩ := List.mem_map.mp hp
        rw [visitRow_id]
        exact hwf a ha
      · intro p hp hpe
        rw [show (applyOp s (Op.visit pid2)).db = (markVisited s.db pid2).db from rfl,
          hdb] at hp
        obtain ⟨a, ha, rfl⟩ := List.mem_map.mp hp
        have haid : a.id = pid := by rw [← visitRow_id pid2 a]; exact hpe
        rcases visitRow_status pid2 a with hst | hst
        · rw [hst]
          exact hvis a ha haid
        · exact hst

lemma locked_applyOps (ops : List Op) {s : QState} {pid : Nat}
    (h : VisitedLocked s pid) : VisitedLocked (applyOps s ops) pid := by
  induction ops generalizing s with
  | nil => exact h
  | cons op t ih => exact ih (locked_applyOp h op)

lemma locked_after_visit {s : QState} {pid : Nat} (hwf : WF s)
    (hsucc : (markVisited s.db pid).err = none) :
    VisitedLocked ⟨(markVisited s.db pid).db, s.nextId⟩ pid := by
  cases hfind : s.db.find? (fun q => q.id == pid) with
  | none => simp [markVisited, hfind] at hsucc
  | some row =>
    by_cases hst : row.status = "Visited"
    · simp [markVisited, hfind, hst] at hsucc
    · have hrmem := List.mem_of_find?_eq_some hfind
      have hrid : row.id = pid := by simpa using List.find?_some hfind
      have hdb : (markVisited s.db pid).db = s.db.map (visitRow pid) := by
        simp [markVisited, hfind, hst]
      refine ⟨hrid ▸ hwf row hrmem, ?_, ?_⟩
      · intro p hp
        rw [show (QState.mk (markVisited s.db pid).db s.nextId).db
            = (markVisited s.db pid).db from rfl, hdb] at hp
        obtain ⟨a, ha, rfl⟩ := List.mem_map.mp hp
        rw [visitRow_id]
        exact hwf a ha
      · intro p hp hpe
        rw [show (QState.mk (markVisited s.db pid).db s.nextId).db
            = (markVisited s.db pid).db from rfl, hdb] at hp
        obtain ⟨a, ha, rfl⟩ := List.mem_map.mp hp
        have haid : (a.id == pid) = true := by
          simp [← visitRow_id pid a, hpe]
        simp [visitRow, haid, setVisited]

/-- C3: statuses are monotonic — a `"Visited"` row survives every operation
unchanged — and after a successful `markVisited pid` on a well-formed state,
no patient with id `pid` ever appears in a later `getAllPatients` result,
whatever operations follow. -/
theorem visited_monotone_and_absent (s : QState) (hwf : WF s) :
    (∀ ops : List Op, ∀ p ∈ s.db, p.status = "Visited" → p ∈ (applyOps s ops).db)
  ∧ (∀ pid : Nat, (markVisited s.db pid).err = none →
      ∀ ops : List Op,
        ∀ q ∈ getAllPatients (applyOps ⟨(markVisited s.db pid).db, s.nextId⟩ ops).db,
          q.id ≠ pid) := by
  constructor
  · intro ops p hp hv
    exact mem_applyOps_of_visited ops hp hv
  · intro pid hsucc ops q hq hqe
    have hlocked := locked_applyOps ops (locked_after_visit hwf hsucc)
    have hqmem : q ∈ ((applyOps ⟨(markVisited s.db pid).db, s.nextId⟩ ops).db).filter
        (fun p => p.status == "Waiting") := by
      unfold getAllPatients at hq
      exact (List.mem_insertionSort patientLE).mp hq
    obtain ⟨hqdb, hqw⟩ := List.mem_filter.mp hqmem
    have hqv := hlocked.2.2 q hqdb hqe
    simp [hqv] at hqw

/-- C3 witness: a store with one `"Waiting"` and one `"Visited"` patient; the
visited row survives an enqueue-then-visit sequence, and after visiting
patient 1, patient 1 is absent from the listing that follows a further
enqueue. -/
theorem visited_monotone_and_absent_witness :
    (⟨3, "Cy", "Cut", "Normal", "T0", "Visited"⟩ : Patient) ∈
      (applyOps ⟨[⟨1, "Al", "Fever", "Normal", "T1", "Waiting"⟩,
                  ⟨3, "Cy", "Cut", "Normal", "T0", "Visited"⟩], 4⟩
        [Op.enqueue "Bo" "Chest" "Emergency" "T2", Op.visit 1]).db
  ∧ (⟨4, "Bo", "Chest", "Emergency", "T2", "Waiting"⟩ : Patient).id ≠ 1 := by
  have h := visited_monotone_and_absent
    ⟨[⟨1, "Al", "Fever", "Normal", "T1", "Waiting"⟩,
      ⟨3, "Cy", "Cut", "Normal", "T0", "Visited"⟩], 4⟩ (by decide)
  refine ⟨h.1 [Op.enqueue "Bo" "Chest" "Emergency" "T2", Op.visit 1]
    ⟨3, "Cy", "Cut", "Normal", "T0", "Visited"⟩ (by decide) rfl, ?_⟩
  exact h.2 1 (by decide) [Op.enqueue "Bo" "Chest" "Emergency" "T2"]
    ⟨4, "Bo", "Chest", "Emergency", "T2", "Waiting"⟩ (by decide)

end ClinicQueue
